import Mathlib

/-!
Verification of the PeerPy signaling examples against their specification.

The repository ships five Flask front ends (`examples/chat`, `examples/echo`,
`examples/exmp`, `examples/terminal_chat`, `examples/whiteboard`) that drive a
`SignalingManager` core.  The HTTP handlers of the examples are embedded
directly from their Python source; the `SignalingManager`/`Room`/`Broadcaster`
core is not part of the source tree here, so it is modelled from the
specification (each such definition says so in its doc comment).
-/

namespace PeerPy

/-! ## JSON values and Python truthiness

The Flask handlers read fields out of `request.get_json()` with `data.get(k)`
and validate them with `all([...])`, i.e. Python truthiness.  We embed the
JSON scalar values the handlers see and Python's truthiness on them:
`None` is falsy, a string is truthy iff nonempty, a number iff nonzero,
a boolean iff `True`. -/

inductive JVal : Type where
  | null : JVal
  | str (s : String) : JVal
  | num (n : Int) : JVal
  | bool (b : Bool) : JVal
  deriving DecidableEq, Repr

def JVal.truthy : JVal → Bool
  | .null => false
  | .str s => s ≠ ""
  | .num n => n ≠ 0
  | .bool b => b

/-- A JSON object body, as the handlers see it: a finite map from keys to
values (association list; Python dict keys are unique, lookup takes the
first binding). -/
def Dict := List (String × JVal)

instance : DecidableEq Dict := by unfold Dict; infer_instance

/-- `data.get(k)`: `some v` when the key is present, `none` (Python `None`)
when absent. -/
def dget (d : Dict) (k : String) : Option JVal :=
  (d.find? (fun kv => kv.fst = k)).map (·.snd)

/-- Truthiness of `data.get(k)`: Python `None` (absent key) is falsy. -/
def truthyO : Option JVal → Bool
  | none => false
  | some v => v.truthy

/-- `data['k']`: raises `KeyError` (modelled as `none`) when absent. -/
def ditem (d : Dict) (k : String) : Option JVal := dget d k

/-! ## HTTP handler outcomes

Each handler either returns a response without touching the
`SignalingManager` (a rejection or a direct response), or reaches the call
into the manager.  Everything after that call depends on the core, so the
embedding of a handler stops at the call, recording its arguments. -/

inductive Step : Type where
  | reject (status : Nat) (msg : String) : Step
  | callOffer (room peer offer : JVal) : Step
  | callCandidate (room peer cand : JVal) : Step
  | callLeave (room peer : JVal) : Step
  | respond (status : Nat) (body : List (String × JVal)) : Step
  deriving DecidableEq, Repr

def missingOfferMsg : String := "Missing required fields: room, peer_id, offer"
def missingMsg : String := "Missing required fields"
def missingEchoMsg : String := "Missing required fields: room, peer_id, message"
def noJsonMsg : String := "No JSON data received"
def internalErrMsg : String := "Internal server error"

/-! ## examples/chat/app.py handlers

`handle_offer` / `handle_candidate` / `handle_leave` first reject a missing
or empty JSON body (`if not data`), then check the required fields with
`all([...])`. -/

def chat_handle_offer (data : Option Dict) : Step :=
  match data with
  | none => .reject 400 noJsonMsg
  | some d =>
    if d = [] then .reject 400 noJsonMsg
    else
      let room_name := dget d "room"
      let peer_id := dget d "peer_id"
      let offer := dget d "offer"
      if truthyO room_name && truthyO peer_id && truthyO offer then
        .callOffer (room_name.getD .null) (peer_id.getD .null) (offer.getD .null)
      else
        .reject 400 missingOfferMsg

def chat_handle_candidate (data : Option Dict) : Step :=
  match data with
  | none => .reject 400 noJsonMsg
  | some d =>
    if d = [] then .reject 400 noJsonMsg
    else
      let room_name := dget d "room"
      let peer_id := dget d "peer_id"
      let candidate := dget d "candidate"
      if truthyO room_name && truthyO peer_id && truthyO candidate then
        .callCandidate (room_name.getD .null) (peer_id.getD .null) (candidate.getD .null)
      else
        .reject 400 missingMsg

def chat_handle_leave (data : Option Dict) : Step :=
  match data with
  | none => .reject 400 noJsonMsg
  | some d =>
    if d = [] then .reject 400 noJsonMsg
    else
      let room_name := dget d "room"
      let peer_id := dget d "peer_id"
      if truthyO room_name && truthyO peer_id then
        .callLeave (room_name.getD .null) (peer_id.getD .null)
      else
        .reject 400 missingMsg

/-! ## examples/echo/app.py handlers

No `if not data` guard: a `None` body makes `data.get` raise
`AttributeError`, caught by the `except` clause as a 500. -/

def echo_handle_offer (data : Option Dict) : Step :=
  match data with
  | none => .reject 500 internalErrMsg
  | some d =>
    let room_name := dget d "room"
    let peer_id := dget d "peer_id"
    let offer := dget d "offer"
    if truthyO room_name && truthyO peer_id && truthyO offer then
      .callOffer (room_name.getD .null) (peer_id.getD .null) (offer.getD .null)
    else
      .reject 400 missingOfferMsg

def echo_handle_candidate (data : Option Dict) : Step :=
  match data with
  | none => .reject 500 internalErrMsg
  | some d =>
    let room_name := dget d "room"
    let peer_id := dget d "peer_id"
    let candidate := dget d "candidate"
    if truthyO room_name && truthyO peer_id && truthyO candidate then
      .callCandidate (room_name.getD .null) (peer_id.getD .null) (candidate.getD .null)
    else
      .reject 400 missingMsg

def echo_handle_leave (data : Option Dict) : Step :=
  match data with
  | none => .reject 500 internalErrMsg
  | some d =>
    let room_name := dget d "room"
    let peer_id := dget d "peer_id"
    if truthyO room_name && truthyO peer_id then
      .callLeave (room_name.getD .null) (peer_id.getD .null)
    else
      .reject 400 missingMsg

/-- `/echo` endpoint of examples/echo/app.py: validates the three fields and
returns the message unchanged as `echo_message`, touching no room or peer
state. -/
def echo_handle_echo (data : Option Dict) : Step :=
  match data with
  | none => .reject 500 internalErrMsg
  | some d =>
    let room_name := dget d "room"
    let peer_id := dget d "peer_id"
    let message := dget d "message"
    if truthyO room_name && truthyO peer_id && truthyO message then
      .respond 200 [("echo_message", message.getD .null)]
    else
      .reject 400 missingEchoMsg

/-! ## examples/whiteboard/app.py handlers (same shape as echo's) -/

def wb_handle_offer (data : Option Dict) : Step :=
  match data with
  | none => .reject 500 internalErrMsg
  | some d =>
    let room_name := dget d "room"
    let peer_id := dget d "peer_id"
    let offer := dget d "offer"
    if truthyO room_name && truthyO peer_id && truthyO offer then
      .callOffer (room_name.getD .null) (peer_id.getD .null) (offer.getD .null)
    else
      .reject 400 missingOfferMsg

def wb_handle_candidate (data : Option Dict) : Step :=
  match data with
  | none => .reject 500 internalErrMsg
  | some d =>
    let room_name := dget d "room"
    let peer_id := dget d "peer_id"
    let candidate := dget d "candidate"
    if truthyO room_name && truthyO peer_id && truthyO candidate then
      .callCandidate (room_name.getD .null) (peer_id.getD .null) (candidate.getD .null)
    else
      .reject 400 missingMsg

def wb_handle_leave (data : Option Dict) : Step :=
  match data with
  | none => .reject 500 internalErrMsg
  | some d =>
    let room_name := dget d "room"
    let peer_id := dget d "peer_id"
    if truthyO room_name && truthyO peer_id then
      .callLeave (room_name.getD .null) (peer_id.getD .null)
    else
      .reject 400 missingMsg

/-! ## examples/exmp/app.py and examples/terminal_chat/app.py offer handlers

exmp uses `data['room']` subscripts: a missing key raises `KeyError`, the
`except` clause returns `str(e)` (Python renders `KeyError` as the quoted
key) with status 500.  terminal_chat performs no validation at all and
passes `data.get(...)` (possibly `None`) straight into the manager. -/

def keyErrorStr (k : String) : String := "\x27" ++ k ++ "\x27"

def exmp_offer (d : Dict) : Step :=
  match ditem d "room" with
  | none => .reject 500 (keyErrorStr "room")
  | some room =>
    match ditem d "peer_id" with
    | none => .reject 500 (keyErrorStr "peer_id")
    | some peer =>
      match ditem d "offer" with
      | none => .reject 500 (keyErrorStr "offer")
      | some offer => .callOffer room peer offer

def terminal_handle_offer (data : Dict) : Step :=
  .callOffer ((dget data "room").getD .null) ((dget data "peer_id").getD .null)
    ((dget data "offer").getD .null)

/-! ## The SignalingManager core, modelled from the spec

The `peerpyrtc` package (SignalingManager, Room, PeerConnection,
Broadcaster) is not in the source tree; only the example front ends that
call it are.  The definitions below are therefore modelled from the
specification (sections 3, 4.1-4.4), as their doc comments record. -/

/-- Modelled from the spec: a PeerConnection's negotiation state (missing
`peerpyrtc` PeerConnection) — whether the remote description has been
applied, the remote SDP, the queue of ICE candidates received before the
remote description was applied, and the candidates applied so far. -/
structure PeerNeg where
  remoteApplied : Bool
  remoteDesc : Option String
  queue : List String
  applied : List String
  deriving DecidableEq, Repr

/-- Modelled from the spec: a freshly created PeerConnection, no description
exchanged yet (state `PENDING`). -/
def PeerNeg.fresh : PeerNeg := ⟨false, none, [], []⟩

/-- Modelled from the spec (§4.1 `candidate`, missing `peerpyrtc`
SignalingManager): if the remote description has already been applied, the
candidate is applied immediately; otherwise it is buffered in the peer's
candidate queue. -/
def recv_candidate (p : PeerNeg) (c : String) : PeerNeg :=
  if p.remoteApplied then { p with applied := p.applied ++ [c] }
  else { p with queue := p.queue ++ [c] }

/-- Modelled from the spec (§4.1 `offer`, missing `peerpyrtc`
SignalingManager): applying the remote (offer) description flushes the
buffered candidates, in arrival order, immediately afterwards. -/
def apply_remote_description (sdp : String) (p : PeerNeg) : PeerNeg :=
  { remoteApplied := true, remoteDesc := some sdp, queue := [],
    applied := p.applied ++ p.queue }

/-- Modelled from the spec: a Room (missing `peerpyrtc` Room) — a mapping
peer_id → PeerConnection in join order, plus the designated host. -/
structure Room where
  peers : List (String × PeerNeg)
  hostId : Option String
  deriving DecidableEq, Repr

/-- Modelled from the spec: `Room.get_host_id()` as read by the chat
example's `/room-status` endpoint. -/
def Room.get_host_id (rm : Room) : Option String := rm.hostId

def Room.peerIds (rm : Room) : List String := rm.peers.map (·.fst)

/-- The SignalingManager's room table: room_name → Room, `none` when the
room is absent. -/
def RState := String → Option Room

def RState.init : RState := fun _ => none

/-- Modelled from the spec (§4.1 `offer`, missing `peerpyrtc`
SignalingManager): an unknown room is created with this peer as host (first
joiner becomes host); a peer_id already in the room is renegotiated (its
descriptions replaced, no duplicate entry); otherwise the peer is appended
in join order.  The remote description is applied as part of the call.
This is the effect on the targeted room's slot; `offer_room` lifts it to
the room table. -/
def offer_update (o : Option Room) (p sdp : String) : Option Room :=
  match o with
  | none => some ⟨[(p, apply_remote_description sdp PeerNeg.fresh)], some p⟩
  | some rm =>
    if p ∈ rm.peerIds then
      some { rm with
        peers := rm.peers.map (fun q =>
          if q.fst = p then (q.fst, apply_remote_description sdp q.snd) else q) }
    else
      some { rm with
        peers := rm.peers ++ [(p, apply_remote_description sdp PeerNeg.fresh)] }

def offer_room (s : RState) (r p sdp : String) : RState :=
  fun name => if name = r then offer_update (s r) p sdp else s name

/-- Modelled from the spec (§4.1 `candidate`, missing `peerpyrtc`
SignalingManager): if room and peer exist the candidate is applied or
buffered on that peer; otherwise it is silently discarded (no-op).
`candidate_update` is the effect on the targeted room's slot. -/
def candidate_update (o : Option Room) (p c : String) : Option Room :=
  match o with
  | none => none
  | some rm =>
    if p ∈ rm.peerIds then
      some { rm with
        peers := rm.peers.map (fun q =>
          if q.fst = p then (q.fst, recv_candidate q.snd c) else q) }
    else some rm

def candidate_room (s : RState) (r p c : String) : RState :=
  fun name => if name = r then candidate_update (s r) p c else s name

/-- Modelled from the spec (§4.1 `leave`, missing `peerpyrtc`
SignalingManager): a nonexistent room or peer is a no-op; otherwise the
peer is removed, the room is deleted if it became empty, and if the
departing peer was host the earliest-joined remaining peer is promoted.
`leave_update` is the effect on the targeted room's slot. -/
def leave_update (o : Option Room) (p : String) : Option Room :=
  match o with
  | none => none
  | some rm =>
    if p ∈ rm.peerIds then
      if rm.peers.filter (fun q => q.fst ≠ p) = [] then none
      else
        some ⟨rm.peers.filter (fun q => q.fst ≠ p),
          if rm.hostId = some p
          then ((rm.peers.filter (fun q => q.fst ≠ p)).head?).map (·.fst)
          else rm.hostId⟩
    else some rm

def leave_room (s : RState) (r p : String) : RState :=
  fun name => if name = r then leave_update (s r) p else s name

/-- Summary of a room as reported by `rooms_info()`. -/
structure RoomInfo where
  peer_count : Nat
  host_id : Option String
  peer_ids : List String
  deriving DecidableEq, Repr

/-- Modelled from the spec (§4.1 `rooms_info`, missing `peerpyrtc`
SignalingManager): snapshot mapping room_name → {peer_count, host_id,
peer_ids}; absent rooms have no entry. -/
def rooms_info (s : RState) (r : String) : Option RoomInfo :=
  (s r).map (fun rm => ⟨rm.peers.length, rm.hostId, rm.peerIds⟩)

/-- An offer or leave call against the manager, for reasoning about call
sequences. -/
inductive ROp : Type where
  | offer (r p sdp : String) : ROp
  | leave (r p : String) : ROp
  deriving DecidableEq, Repr

def applyROp (s : RState) : ROp → RState
  | .offer r p sdp => offer_room s r p sdp
  | .leave r p => leave_room s r p

def applyROps (ops : List ROp) : RState :=
  ops.foldl applyROp RState.init

/-! ## Asynchronous delivery of one peer's negotiation events

The spec's candidate-buffering guarantee (§4.1, §5) concerns the race
between an `offer` call and candidates delivered before the offer's remote
description has been applied internally.  We model one peer's event stream:
the PeerConnection is created (`PENDING`, remote description not yet
applied), candidates arrive, and at some point the engine applies the
remote description. -/

inductive NegEvent : Type where
  | candidate (c : String) : NegEvent
  | remoteApplied (sdp : String) : NegEvent
  deriving DecidableEq, Repr

def stepNeg (p : PeerNeg) : NegEvent → PeerNeg
  | .candidate c => recv_candidate p c
  | .remoteApplied sdp => apply_remote_description sdp p

def run_neg (p : PeerNeg) (evs : List NegEvent) : PeerNeg :=
  evs.foldl stepNeg p

/-! ## SignalingManager API-level offer, modelled from the spec -/

inductive SigError : Type where
  | invalidRequest : SigError
  | negotiationError : SigError
  | engineTimeout : SigError
  deriving DecidableEq, Repr

/-- Modelled from the spec (§4.1 `offer`, missing `peerpyrtc`
SignalingManager): fails with `InvalidRequest` when any of
`room_name`/`peer_id`/`offer_sdp` is absent, leaving the room table
untouched; otherwise performs the room-level offer and returns the answer
SDP generated by the connection engine (opaque here). -/
def offer_api (answer_for : String → String) (s : RState)
    (room peer sdp : Option String) : RState × Except SigError String :=
  match room, peer, sdp with
  | some r, some p, some d => (offer_room s r p d, .ok (answer_for d))
  | _, _, _ => (s, .error .invalidRequest)

/-! ## HandlerRegistry, modelled from the spec -/

/-- Modelled from the spec (§3 HandlerRegistry, missing `peerpyrtc`
SignalingManager decorators): three optional single-slot callback bindings;
registering a callback for a kind replaces any previous one. -/
structure HandlerRegistry (H : Type) where
  onMessage : Option H
  onPeerJoined : Option H
  onPeerLeft : Option H
  deriving DecidableEq, Repr

def HandlerRegistry.empty : HandlerRegistry H := ⟨none, none, none⟩

/-- Modelled from the spec: `@signaling_manager.message_handler` —
replace-on-write registration. -/
def message_handler (h : H) (reg : HandlerRegistry H) : HandlerRegistry H :=
  { reg with onMessage := some h }

/-- Modelled from the spec: `@signaling_manager.peer_joined_handler`. -/
def peer_joined_handler (h : H) (reg : HandlerRegistry H) : HandlerRegistry H :=
  { reg with onPeerJoined := some h }

/-- Modelled from the spec: `@signaling_manager.peer_left_handler`. -/
def peer_left_handler (h : H) (reg : HandlerRegistry H) : HandlerRegistry H :=
  { reg with onPeerLeft := some h }

inductive RegEvent (H : Type) : Type where
  | msg (h : H) : RegEvent H
  | joined (h : H) : RegEvent H
  | left (h : H) : RegEvent H

def applyReg (reg : HandlerRegistry H) : RegEvent H → HandlerRegistry H
  | .msg h => message_handler h reg
  | .joined h => peer_joined_handler h reg
  | .left h => peer_left_handler h reg

def applyRegs (reg : HandlerRegistry H) (evs : List (RegEvent H)) :
    HandlerRegistry H :=
  evs.foldl applyReg reg

/-- Modelled from the spec (§4.4): dispatch of an `on_message` event
invokes exactly the callback currently bound in the single `onMessage`
slot (none if no callback was ever registered). -/
def dispatch_message (reg : HandlerRegistry H) : Option H := reg.onMessage

def msgStep (acc : Option H) : RegEvent H → Option H
  | .msg h => some h
  | _ => acc

def joinedStep (acc : Option H) : RegEvent H → Option H
  | .joined h => some h
  | _ => acc

def leftStep (acc : Option H) : RegEvent H → Option H
  | .left h => some h
  | _ => acc

/-- The most recent registration of each kind in a sequence, if any. -/
def lastMsgReg (evs : List (RegEvent H)) : Option H :=
  evs.foldl msgStep none

def lastJoinedReg (evs : List (RegEvent H)) : Option H :=
  evs.foldl joinedStep none

def lastLeftReg (evs : List (RegEvent H)) : Option H :=
  evs.foldl leftStep none

/-! ## Broadcaster, modelled from the spec -/

/-- A peer as the Broadcaster sees it: its id and whether its channel has
reached `CONNECTED`. -/
structure BPeer where
  peer_id : String
  connected : Bool
  deriving DecidableEq, Repr

/-- Modelled from the spec (§4.3 Broadcaster.broadcast, missing `peerpyrtc`
Broadcaster): sends the message to every `CONNECTED` peer of the room's
snapshot; each per-peer send failure is caught and logged (`false` in the
returned log), never raised, and never aborts the sends to the remaining
peers.  The `Except` result is the caller-visible outcome. -/
def broadcast (send : String → String → Except String Unit)
    (peers : List BPeer) (msg : String) :
    Except String (List (String × Bool)) :=
  .ok (peers.filterMap (fun p =>
    if p.connected then
      some (p.peer_id,
        match send p.peer_id msg with
        | .ok _ => true
        | .error _ => false)
    else none))

/-- examples/terminal_chat/app.py `terminal_input_loop` body for one line
read from the terminal: a nonempty line is broadcast to the default room;
the loop does not catch send errors itself. -/
def terminal_input_step (send : String → String → Except String Unit)
    (peers : List BPeer) (line : String) :
    Except String (Option (List (String × Bool))) :=
  if line ≠ "" then
    match broadcast send peers line with
    | .ok log => .ok (some log)
    | .error e => .error e
  else .ok none

/-! ## examples/whiteboard/app.py message handler

`handle_whiteboard_events` is registered as the message handler.  It
special-cases messages that start with the SYSTEM marker: `json.loads` may
raise (modelled as `WbParse.fail`), `data.get('action')` yields an optional
string, and the subscripts `data['payload']['event']` /
`data['payload']['data']` raise `KeyError` when absent (modelled as `none`).
All exceptions are caught by the handler's outer `except`. -/

/-- The literal prefix checked by `message.startswith(...)`. -/
def systemMarker : String := "\x7b\"type\":\"SYSTEM\""

/-- `message.startswith(prefix_str)`: character-list prefix test. -/
def strStartsWith (s pre : String) : Bool := pre.data.isPrefixOf s.data

/-- Outcome of `json.loads` on a SYSTEM-marked message: failure, or the
fields the handler reads — `data.get('action')`, `data['payload']['event']`
and `data['payload']['data']` (`none` meaning the subscript raises). -/
inductive WbParse : Type where
  | fail : WbParse
  | parsed (action payloadEvent payloadData : Option String) : WbParse
  deriving DecidableEq, Repr

/-- A row appended by `WhiteboardDB.save_action`. -/
structure DbAction where
  room : String
  user : String
  action : String
  info : Option String
  deriving DecidableEq, Repr

/-- Body of `handle_whiteboard_events` before the outer `except`: `.error`
marks a raised exception, `.ok` lists the actions saved to the database. -/
def wb_body (loads : String → WbParse) (room_name sender_id message : String) :
    Except String (List DbAction) :=
  if strStartsWith message systemMarker then
    match loads message with
    | .fail => .error "json.loads"
    | .parsed action payloadEvent payloadData =>
      if action = some "EVENT" then
        match payloadEvent with
        | none => .error "KeyError event"
        | some event_name =>
          match payloadData with
          | none => .error "KeyError data"
          | some _ =>
            if event_name = "draw" then .ok []
            else if event_name = "clear" then
              .ok [⟨room_name, sender_id, "clear_canvas", none⟩]
            else if event_name = "cursor" then .ok []
            else .ok []
      else
        if message ≠ "" ∧ message.length < 1000 then
          .ok [⟨room_name, sender_id, "message", some message⟩]
        else .ok []
  else
    if message ≠ "" ∧ message.length < 1000 then
      .ok [⟨room_name, sender_id, "message", some message⟩]
    else .ok []

/-- `handle_whiteboard_events` itself: every exception of the body is caught
and printed, so the handler always completes normally. -/
def handle_whiteboard_events (loads : String → WbParse)
    (room_name sender_id message : String) : Except String (List DbAction) :=
  match wb_body loads room_name sender_id message with
  | .ok acts => .ok acts
  | .error _ => .ok []

/-! # Theorems -/

/-! ## C3: candidate buffering -/

lemma run_neg_append (p : PeerNeg) (xs ys : List NegEvent) :
    run_neg p (xs ++ ys) = run_neg (run_neg p xs) ys := by
  simp [run_neg, List.foldl_append]

lemma run_candidates_pending (cs : List String) :
    ∀ p : PeerNeg, p.remoteApplied = false →
      run_neg p (cs.map .candidate) = { p with queue := p.queue ++ cs } := by
  induction cs with
  | nil => intro p _; simp [run_neg]
  | cons c cs ih =>
    intro p h
    have h1 : run_neg p ((c :: cs).map .candidate) =
        run_neg (recv_candidate p c) (cs.map .candidate) := by
      simp [run_neg, stepNeg]
    rw [h1, recv_candidate, if_neg (by simp [h])]
    rw [ih _ (by simp [h])]
    simp

/-- C3: `offer(r,p,sdp)` immediately followed by `candidate(r,p,c1)` and
`candidate(r,p,c2)` applies both candidates, in the order c1 then c2, once
the remote description is applied: candidates arriving on a fresh
PeerConnection before the remote description are buffered in the peer's
queue and flushed in arrival order (per-peer FIFO), never lost. -/
theorem C3_candidates_buffered_fifo (c1 c2 sdp : String) (cs : List String) :
    (run_neg PeerNeg.fresh
        [.candidate c1, .candidate c2, .remoteApplied sdp]).applied = [c1, c2] ∧
    (run_neg PeerNeg.fresh (cs.map .candidate ++ [.remoteApplied sdp])).applied = cs ∧
    (run_neg PeerNeg.fresh (cs.map .candidate ++ [.remoteApplied sdp])).queue = [] := by
  have key : ∀ ds : List String,
      run_neg PeerNeg.fresh (ds.map .candidate ++ [.remoteApplied sdp]) =
        ⟨true, some sdp, [], ds⟩ := by
    intro ds
    rw [run_neg_append, run_candidates_pending ds PeerNeg.fresh rfl]
    simp [run_neg, stepNeg, apply_remote_description, PeerNeg.fresh]
  refine ⟨?_, by rw [key], by rw [key]⟩
  have h1 := key [c1, c2]
  simpa using congrArg PeerNeg.applied h1

/-! ## C7: best-effort broadcast -/

lemma filterMap_connected_fst (g : BPeer → Bool) :
    ∀ peers : List BPeer,
      ((peers.filterMap (fun p =>
          if p.connected then some (p.peer_id, g p) else none)).map Prod.fst) =
        (peers.filter (fun p => p.connected)).map BPeer.peer_id := by
  intro peers
  induction peers with
  | nil => rfl
  | cons p ps ih =>
    by_cases h : p.connected <;> simp [List.filterMap_cons, h, ih]

/-- C7: `Broadcaster.broadcast` attempts the send to every CONNECTED peer of
the room regardless of per-peer send failures (which are logged, not
raised), and always returns normally, so the terminal input loop that calls
it from a background thread is never terminated by a broadcast failure. -/
theorem C7_broadcast_never_raises (send : String → String → Except String Unit)
    (peers : List BPeer) (msg : String) :
    (∃ log, broadcast send peers msg = .ok log ∧
      log.map Prod.fst = (peers.filter (fun p => p.connected)).map BPeer.peer_id) ∧
    (∃ r, terminal_input_step send peers msg = .ok r) := by
  constructor
  · exact ⟨_, rfl, filterMap_connected_fst _ peers⟩
  · unfold terminal_input_step
    split
    · rw [broadcast]
      exact ⟨_, rfl⟩
    · exact ⟨none, rfl⟩

/-! ## C9: the echo endpoint is the identity on the message -/

/-- C9: when `room`, `peer_id` and `message` are all truthy, `/echo`
responds 200 with `echo_message` equal to the request's message unchanged,
and performs no room or peer mutation (the handler returns directly,
reaching no SignalingManager call). -/
theorem C9_echo_returns_message (d : Dict) (v : JVal)
    (hr : truthyO (dget d "room") = true)
    (hp : truthyO (dget d "peer_id") = true)
    (hm : dget d "message" = some v)
    (hv : v.truthy = true) :
    echo_handle_echo (some d) = .respond 200 [("echo_message", v)] := by
  have hall : (truthyO (dget d "room") && truthyO (dget d "peer_id") &&
      truthyO (dget d "message")) = true := by
    rw [hr, hp, hm]; simp [truthyO, hv]
  simp [echo_handle_echo, hall, hm]
  exact ⟨hr, hp, by simp [truthyO, hv]⟩

theorem C9_witness :
    echo_handle_echo
        (some [("room", .str "lobby"), ("peer_id", .str "A"), ("message", .str "hi")]) =
      .respond 200 [("echo_message", .str "hi")] :=
  C9_echo_returns_message _ (.str "hi") (by decide) (by decide) (by decide) (by decide)

/-! ## Shared lemmas for the field-validation claims (C5, C8) -/

lemma and3_false {a b c : Bool} (h : a = false ∨ b = false ∨ c = false) :
    (a && b && c) = false := by
  rcases h with h | h | h <;> simp [h]

lemma and2_false {a b : Bool} (h : a = false ∨ b = false) :
    (a && b) = false := by
  rcases h with h | h <;> simp [h]

lemma offer_handlers_reject (d : Dict) (hne : d ≠ [])
    (h : truthyO (dget d "room") = false ∨ truthyO (dget d "peer_id") = false ∨
      truthyO (dget d "offer") = false) :
    chat_handle_offer (some d) = .reject 400 missingOfferMsg ∧
    echo_handle_offer (some d) = .reject 400 missingOfferMsg ∧
    wb_handle_offer (some d) = .reject 400 missingOfferMsg := by
  have hc := and3_false h
  refine ⟨?_, ?_, ?_⟩ <;> simp [chat_handle_offer, echo_handle_offer, wb_handle_offer, hne, hc]

lemma candidate_handlers_reject (d : Dict) (hne : d ≠ [])
    (h : truthyO (dget d "room") = false ∨ truthyO (dget d "peer_id") = false ∨
      truthyO (dget d "candidate") = false) :
    chat_handle_candidate (some d) = .reject 400 missingMsg ∧
    echo_handle_candidate (some d) = .reject 400 missingMsg ∧
    wb_handle_candidate (some d) = .reject 400 missingMsg := by
  have hc := and3_false h
  refine ⟨?_, ?_, ?_⟩ <;>
    simp [chat_handle_candidate, echo_handle_candidate, wb_handle_candidate, hne, hc]

lemma leave_handlers_reject (d : Dict) (hne : d ≠ [])
    (h : truthyO (dget d "room") = false ∨ truthyO (dget d "peer_id") = false) :
    chat_handle_leave (some d) = .reject 400 missingMsg ∧
    echo_handle_leave (some d) = .reject 400 missingMsg ∧
    wb_handle_leave (some d) = .reject 400 missingMsg := by
  have hc := and2_false h
  refine ⟨?_, ?_, ?_⟩ <;>
    simp [chat_handle_leave, echo_handle_leave, wb_handle_leave, hne, hc]

/-! ## C8: a present-but-falsy field is treated like an absent one -/

/-- C8: in the chat, echo and whiteboard apps, the `/offer`, `/candidate`
and `/leave` handlers reject with HTTP 400 and the missing-fields error —
without reaching the SignalingManager call — whenever any required field's
value is falsy (absent, `None`, empty string, or 0): the check is
`all([...])` over the values, not key presence. -/
theorem C8_falsy_fields_rejected (d : Dict) (hne : d ≠ []) :
    ((truthyO (dget d "room") = false ∨ truthyO (dget d "peer_id") = false ∨
        truthyO (dget d "offer") = false) →
      chat_handle_offer (some d) = .reject 400 missingOfferMsg ∧
      echo_handle_offer (some d) = .reject 400 missingOfferMsg ∧
      wb_handle_offer (some d) = .reject 400 missingOfferMsg) ∧
    ((truthyO (dget d "room") = false ∨ truthyO (dget d "peer_id") = false ∨
        truthyO (dget d "candidate") = false) →
      chat_handle_candidate (some d) = .reject 400 missingMsg ∧
      echo_handle_candidate (some d) = .reject 400 missingMsg ∧
      wb_handle_candidate (some d) = .reject 400 missingMsg) ∧
    ((truthyO (dget d "room") = false ∨ truthyO (dget d "peer_id") = false) →
      chat_handle_leave (some d) = .reject 400 missingMsg ∧
      echo_handle_leave (some d) = .reject 400 missingMsg ∧
      wb_handle_leave (some d) = .reject 400 missingMsg) :=
  ⟨offer_handlers_reject d hne, candidate_handlers_reject d hne,
    leave_handlers_reject d hne⟩

theorem C8_witness :
    chat_handle_offer (some [("room", .str ""), ("peer_id", .str "A"), ("offer", .str "x")]) =
      .reject 400 missingOfferMsg ∧
    echo_handle_candidate (some [("room", .str "r"), ("peer_id", .num 0),
        ("candidate", .str "c")]) = .reject 400 missingMsg ∧
    wb_handle_leave (some [("room", .null), ("peer_id", .str "A")]) =
      .reject 400 missingMsg := by
  refine ⟨?_, ?_, ?_⟩
  · exact ((C8_falsy_fields_rejected _ (by decide)).1 (Or.inl (by decide))).1
  · exact ((C8_falsy_fields_rejected _ (by decide)).2.1
      (Or.inr (Or.inl (by decide)))).2.1
  · exact ((C8_falsy_fields_rejected _ (by decide)).2.2 (Or.inl (by decide))).2.2

/-! ## C5: missing offer fields -/

/-- C5 (amended): a core `offer` with any of room_name/peer_id/offer_sdp
absent fails with `InvalidRequest` and leaves the room table untouched; the
chat (given a nonempty JSON body), echo and whiteboard front ends surface
this as HTTP 400 with the missing-required-fields error and never reach the
`SignalingManager.offer` call.  (The terminal_chat and exmp front ends do
not validate and surface the failure as HTTP 500 instead — see the
counterexample.) -/
theorem C5_missing_offer_fields (af : String → String) (s : RState)
    (room peer sdp : Option String) (d : Dict)
    (hmiss : room = none ∨ peer = none ∨ sdp = none)
    (hdmiss : dget d "room" = none ∨ dget d "peer_id" = none ∨
      dget d "offer" = none)
    (hne : d ≠ []) :
    offer_api af s room peer sdp = (s, .error .invalidRequest) ∧
    chat_handle_offer (some d) = .reject 400 missingOfferMsg ∧
    echo_handle_offer (some d) = .reject 400 missingOfferMsg ∧
    wb_handle_offer (some d) = .reject 400 missingOfferMsg := by
  constructor
  · cases room <;> cases peer <;> cases sdp <;> simp_all [offer_api]
  · exact offer_handlers_reject d hne
      (by rcases hdmiss with h | h | h <;> simp [h, truthyO])

/-- C5 counterexample: the exmp front end's `/offer` handler surfaces a
request whose `offer` field is absent as HTTP 500 (the `KeyError` message),
not as a 400 missing-required-fields error. -/
theorem C5_counterexample :
    exmp_offer [("room", .str "lobby"), ("peer_id", .str "A")] =
      .reject 500 (keyErrorStr "offer") ∧
    exmp_offer [("room", .str "lobby"), ("peer_id", .str "A")] ≠
      .reject 400 missingOfferMsg := by
  decide

theorem C5_witness :
    offer_api id RState.init (some "lobby") (some "A") none =
      (RState.init, .error .invalidRequest) ∧
    chat_handle_offer (some [("room", .str "lobby")]) =
      .reject 400 missingOfferMsg := by
  have h := C5_missing_offer_fields id RState.init (some "lobby") (some "A") none
    [("room", .str "lobby")] (Or.inr (Or.inr rfl))
    (Or.inr (Or.inl (by decide))) (by decide)
  exact ⟨h.1, h.2.1⟩

/-! ## C6: handler registration is replace-on-write, last wins -/

lemma foldl_overwrite {α β : Type _} (f : Option α → β → Option α)
    (hf : ∀ e, (∀ i, f i e = i) ∨ ∃ h, ∀ i, f i e = some h) :
    ∀ (t : List β) (i : Option α),
      t.foldl f i = t.foldl f none ∨
        (t.foldl f none = none ∧ t.foldl f i = i) := by
  intro t
  induction t with
  | nil => intro i; exact Or.inr ⟨rfl, rfl⟩
  | cons e t ih =>
    intro i
    rcases hf e with he | ⟨h, he⟩
    · simp only [List.foldl_cons, he]
      exact ih i
    · exact Or.inl (by simp only [List.foldl_cons, he])

lemma applyRegs_onMessage {H : Type} (evs : List (RegEvent H)) :
    ∀ reg : HandlerRegistry H,
      (applyRegs reg evs).onMessage = evs.foldl msgStep reg.onMessage := by
  induction evs with
  | nil => intro reg; rfl
  | cons e t ih =>
    intro reg
    have h1 : applyRegs reg (e :: t) = applyRegs (applyReg reg e) t := rfl
    have h2 : (applyReg reg e).onMessage = msgStep reg.onMessage e := by
      cases e <;> rfl
    rw [h1, ih, h2, List.foldl_cons]

lemma applyRegs_onPeerJoined {H : Type} (evs : List (RegEvent H)) :
    ∀ reg : HandlerRegistry H,
      (applyRegs reg evs).onPeerJoined = evs.foldl joinedStep reg.onPeerJoined := by
  induction evs with
  | nil => intro reg; rfl
  | cons e t ih =>
    intro reg
    have h1 : applyRegs reg (e :: t) = applyRegs (applyReg reg e) t := rfl
    have h2 : (applyReg reg e).onPeerJoined = joinedStep reg.onPeerJoined e := by
      cases e <;> rfl
    rw [h1, ih, h2, List.foldl_cons]

lemma applyRegs_onPeerLeft {H : Type} (evs : List (RegEvent H)) :
    ∀ reg : HandlerRegistry H,
      (applyRegs reg evs).onPeerLeft = evs.foldl leftStep reg.onPeerLeft := by
  induction evs with
  | nil => intro reg; rfl
  | cons e t ih =>
    intro reg
    have h1 : applyRegs reg (e :: t) = applyRegs (applyReg reg e) t := rfl
    have h2 : (applyReg reg e).onPeerLeft = leftStep reg.onPeerLeft e := by
      cases e <;> rfl
    rw [h1, ih, h2, List.foldl_cons]

lemma msgStep_overwrite {H : Type} :
    ∀ e : RegEvent H, (∀ i : Option H, msgStep i e = i) ∨
      ∃ h, ∀ i : Option H, msgStep i e = some h := by
  intro e
  cases e with
  | msg h => exact Or.inr ⟨h, fun _ => rfl⟩
  | joined h => exact Or.inl fun _ => rfl
  | left h => exact Or.inl fun _ => rfl

lemma joinedStep_overwrite {H : Type} :
    ∀ e : RegEvent H, (∀ i : Option H, joinedStep i e = i) ∨
      ∃ h, ∀ i : Option H, joinedStep i e = some h := by
  intro e
  cases e with
  | msg h => exact Or.inl fun _ => rfl
  | joined h => exact Or.inr ⟨h, fun _ => rfl⟩
  | left h => exact Or.inl fun _ => rfl

lemma leftStep_overwrite {H : Type} :
    ∀ e : RegEvent H, (∀ i : Option H, leftStep i e = i) ∨
      ∃ h, ∀ i : Option H, leftStep i e = some h := by
  intro e
  cases e with
  | msg h => exact Or.inl fun _ => rfl
  | joined h => exact Or.inl fun _ => rfl
  | left h => exact Or.inr ⟨h, fun _ => rfl⟩

/-- C6: each handler registration replaces the previous binding of its kind
(single slot): after registering `h` as the latest `message_handler`,
dispatch of `on_message` invokes `h`; in general whenever a sequence of
registrations has a most recent message registration `g`, only `g` is held
and dispatched — and likewise for `peer_joined_handler` and
`peer_left_handler`. -/
theorem C6_last_registration_wins {H : Type} (reg : HandlerRegistry H)
    (evs : List (RegEvent H)) (h : H) :
    dispatch_message (applyRegs reg (evs ++ [.msg h])) = some h ∧
    (∀ g, lastMsgReg evs = some g →
      dispatch_message (applyRegs reg evs) = some g) ∧
    (applyRegs reg (evs ++ [.joined h])).onPeerJoined = some h ∧
    (∀ g, lastJoinedReg evs = some g →
      (applyRegs reg evs).onPeerJoined = some g) ∧
    (applyRegs reg (evs ++ [.left h])).onPeerLeft = some h ∧
    (∀ g, lastLeftReg evs = some g →
      (applyRegs reg evs).onPeerLeft = some g) := by
  have happ : ∀ e : RegEvent H,
      applyRegs reg (evs ++ [e]) = applyReg (applyRegs reg evs) e := by
    intro e; simp [applyRegs, List.foldl_append]
  refine ⟨?_, ?_, ?_, ?_, ?_, ?_⟩
  · rw [dispatch_message, happ]; rfl
  · intro g hg
    rw [dispatch_message, applyRegs_onMessage]
    rcases foldl_overwrite _ msgStep_overwrite evs reg.onMessage with h1 | ⟨h2, _⟩
    · rw [h1]; exact hg
    · rw [lastMsgReg, h2] at hg; exact absurd hg (by simp)
  · rw [happ]; rfl
  · intro g hg
    rw [applyRegs_onPeerJoined]
    rcases foldl_overwrite _ joinedStep_overwrite evs reg.onPeerJoined with h1 | ⟨h2, _⟩
    · rw [h1]; exact hg
    · rw [lastJoinedReg, h2] at hg; exact absurd hg (by simp)
  · rw [happ]; rfl
  · intro g hg
    rw [applyRegs_onPeerLeft]
    rcases foldl_overwrite _ leftStep_overwrite evs reg.onPeerLeft with h1 | ⟨h2, _⟩
    · rw [h1]; exact hg
    · rw [lastLeftReg, h2] at hg; exact absurd hg (by simp)

theorem C6_witness :
    dispatch_message (applyRegs (HandlerRegistry.empty : HandlerRegistry Nat)
      ([RegEvent.msg 1, RegEvent.joined 7] ++ [RegEvent.msg 3])) = some 3 ∧
    dispatch_message (applyRegs (HandlerRegistry.empty : HandlerRegistry Nat)
      [RegEvent.msg 1, RegEvent.joined 7]) = some 1 := by
  have h := C6_last_registration_wins (HandlerRegistry.empty : HandlerRegistry Nat)
    [RegEvent.msg 1, RegEvent.joined 7] 3
  exact ⟨h.1, h.2.1 1 rfl⟩

/-! ## C4: candidate/leave on nonexistent room or peer are no-ops; leave is
idempotent -/

lemma not_mem_map_fst_filter (l : List (String × PeerNeg)) (p : String) :
    p ∉ (l.filter (fun q => q.fst ≠ p)).map Prod.fst := by
  intro h
  simp only [List.mem_map, List.mem_filter, decide_eq_true_eq] at h
  obtain ⟨q, ⟨_, hq⟩, hfst⟩ := h
  exact hq hfst

lemma leave_update_removes (o : Option Room) (p : String) :
    leave_update o p = none ∨
      ∃ rm', leave_update o p = some rm' ∧ p ∉ rm'.peerIds := by
  cases o with
  | none => exact Or.inl rfl
  | some rm =>
    by_cases hp : p ∈ rm.peerIds
    · by_cases he : rm.peers.filter (fun q => q.fst ≠ p) = []
      · exact Or.inl (by rw [leave_update, if_pos hp, if_pos he])
      · refine Or.inr ⟨⟨rm.peers.filter (fun q => q.fst ≠ p),
            if rm.hostId = some p
            then ((rm.peers.filter (fun q => q.fst ≠ p)).head?).map (·.fst)
            else rm.hostId⟩, by rw [leave_update, if_pos hp, if_neg he], ?_⟩
        simp [Room.peerIds]
    · exact Or.inr ⟨rm, by rw [leave_update, if_neg hp], hp⟩

/-- C4: `candidate` and `leave` aimed at a nonexistent room, or at a peer
not present in an existing room, leave every room and peer unchanged; and
`leave` is idempotent — a second `leave` with the same arguments is a
no-op. -/
theorem C4_noop_and_idempotent (s : RState) (r p c : String) :
    (s r = none → candidate_room s r p c = s ∧ leave_room s r p = s) ∧
    (∀ rm, s r = some rm → p ∉ rm.peerIds →
      candidate_room s r p c = s ∧ leave_room s r p = s) ∧
    leave_room (leave_room s r p) r p = leave_room s r p := by
  refine ⟨?_, ?_, ?_⟩
  · intro h
    constructor
    · funext name
      show (if name = r then candidate_update (s r) p c else s name) = s name
      by_cases hn : name = r
      · rw [if_pos hn, hn, h]; rfl
      · rw [if_neg hn]
    · funext name
      show (if name = r then leave_update (s r) p else s name) = s name
      by_cases hn : name = r
      · rw [if_pos hn, hn, h]; rfl
      · rw [if_neg hn]
  · intro rm hsome hp
    have hc : candidate_update (s r) p c = s r := by
      rw [hsome, candidate_update, if_neg hp]
    have hl : leave_update (s r) p = s r := by
      rw [hsome, leave_update, if_neg hp]
    constructor
    · funext name
      show (if name = r then candidate_update (s r) p c else s name) = s name
      by_cases hn : name = r
      · rw [if_pos hn, hc, hn]
      · rw [if_neg hn]
    · funext name
      show (if name = r then leave_update (s r) p else s name) = s name
      by_cases hn : name = r
      · rw [if_pos hn, hl, hn]
      · rw [if_neg hn]
  · funext name
    show (if name = r then leave_update (leave_room s r p r) p
        else leave_room s r p name) = leave_room s r p name
    by_cases hn : name = r
    · rw [if_pos hn, hn]
      have hat : leave_room s r p r = leave_update (s r) p := by
        show (if r = r then leave_update (s r) p else s r) = _
        rw [if_pos rfl]
      rw [hat]
      rcases leave_update_removes (s r) p with h1 | ⟨rm', h1, hp'⟩
      · rw [h1]; rfl
      · rw [h1, leave_update, if_neg hp']
    · rw [if_neg hn]

theorem C4_witness :
    candidate_room RState.init "lobby" "A" "c" = RState.init ∧
    leave_room RState.init "lobby" "A" = RState.init := by
  exact (C4_noop_and_idempotent RState.init "lobby" "A" "c").1 rfl

/-! ## C2: the first offer into an unseen room makes that peer the host -/

/-- A sequence of `offer` calls, all targeting room `r`, each with a peer id
and an SDP. -/
def offer_seq (s : RState) (r : String) (calls : List (String × String)) : RState :=
  calls.foldl (fun st pc => offer_room st r pc.fst pc.snd) s

lemma map_fst_update (l : List (String × PeerNeg)) (p sdp : String) :
    (l.map (fun q =>
      if q.fst = p then (q.fst, apply_remote_description sdp q.snd) else q)).map
        Prod.fst = l.map Prod.fst := by
  induction l with
  | nil => rfl
  | cons a t ih => by_cases h : a.fst = p <;> simp [h, ih]

lemma offer_update_existing (rm : Room) (p sdp : String) :
    ∃ rm', offer_update (some rm) p sdp = some rm' ∧ rm'.hostId = rm.hostId ∧
      ∀ q, q ∈ rm.peerIds → q ∈ rm'.peerIds := by
  by_cases hp : p ∈ rm.peerIds
  · refine ⟨{ rm with peers := rm.peers.map (fun q =>
        if q.fst = p then (q.fst, apply_remote_description sdp q.snd) else q) },
      by rw [offer_update, if_pos hp], rfl, ?_⟩
    intro q hq
    simp only [Room.peerIds] at hq ⊢
    rw [show ((rm.peers.map (fun q =>
        if q.fst = p then (q.fst, apply_remote_description sdp q.snd) else q)).map
          fun x => x.fst) = rm.peers.map fun x => x.fst from map_fst_update rm.peers p sdp]
    exact hq
  · refine ⟨{ rm with
        peers := rm.peers ++ [(p, apply_remote_description sdp PeerNeg.fresh)] },
      by rw [offer_update, if_neg hp], rfl, ?_⟩
    intro q hq
    simp only [Room.peerIds] at hq ⊢
    simp [hq]

lemma offer_seq_preserves (calls : List (String × String)) :
    ∀ (s : RState) (r : String) (rm : Room), s r = some rm →
      ∃ rm', offer_seq s r calls r = some rm' ∧ rm'.hostId = rm.hostId ∧
        ∀ q, q ∈ rm.peerIds → q ∈ rm'.peerIds := by
  induction calls with
  | nil => intro s r rm h; exact ⟨rm, h, rfl, fun _ hq => hq⟩
  | cons c cs ih =>
    intro s r rm h
    have hstep : offer_room s r c.fst c.snd r = offer_update (s r) c.fst c.snd := by
      show (if r = r then _ else _) = _
      rw [if_pos rfl]
    rw [h] at hstep
    obtain ⟨rm1, h1, h2, h3⟩ := offer_update_existing rm c.fst c.snd
    rw [h1] at hstep
    obtain ⟨rm', h1', h2', h3'⟩ := ih (offer_room s r c.fst c.snd) r rm1 hstep
    exact ⟨rm', h1', h2'.trans h2, fun q hq => h3' q (h3 q hq)⟩

/-- C2: for a sequence of offers with pairwise-distinct peer ids all aimed
at a room not present in the table, the first offer's peer becomes the
room's host: at the end of the sequence the peer is still in the room and
both `get_host_id()` and `rooms_info()[room].host_id` report it. -/
theorem C2_first_offer_is_host (s : RState) (r p sdp : String)
    (rest : List (String × String))
    (hfresh : s r = none)
    (_hdistinct : (p :: rest.map Prod.fst).Nodup) :
    ∃ rm, offer_seq s r ((p, sdp) :: rest) r = some rm ∧
      rm.get_host_id = some p ∧ p ∈ rm.peerIds ∧
      rooms_info (offer_seq s r ((p, sdp) :: rest)) r =
        some ⟨rm.peers.length, some p, rm.peerIds⟩ := by
  have hstep : offer_room s r p sdp r = offer_update (s r) p sdp := by
    show (if r = r then _ else _) = _
    rw [if_pos rfl]
  rw [hfresh] at hstep
  have hfold : offer_seq s r ((p, sdp) :: rest) =
      offer_seq (offer_room s r p sdp) r rest := rfl
  obtain ⟨rm', h1, h2, h3⟩ := offer_seq_preserves rest (offer_room s r p sdp) r
    ⟨[(p, apply_remote_description sdp PeerNeg.fresh)], some p⟩ (by rw [hstep]; rfl)
  rw [hfold]
  refine ⟨rm', h1, ?_, ?_, ?_⟩
  · rw [Room.get_host_id, h2]
  · exact h3 p (by simp [Room.peerIds])
  · simp [rooms_info, h1, h2]

theorem C2_witness :
    rooms_info (offer_seq RState.init "lobby" [("A", "s"), ("B", "t")]) "lobby" =
      some ⟨2, some "A", ["A", "B"]⟩ := by
  obtain ⟨rm, h1, _, _, h4⟩ := C2_first_offer_is_host RState.init "lobby" "A" "s"
    [("B", "t")] rfl (by decide)
  have he : offer_seq RState.init "lobby" [("A", "s"), ("B", "t")] "lobby" =
      some (⟨[("A", ⟨true, some "s", [], []⟩), ("B", ⟨true, some "t", [], []⟩)],
        some "A"⟩ : Room) := by decide
  rw [he] at h1
  injection h1 with h1
  rw [← h1] at h4
  exact h4.trans (by decide)

/-! ## C1: host reassignment, empty rooms removed, rooms_info invariants -/

/-- A room's internal invariant: it is nonempty and its host, if set, is a
current member. -/
def roomInv (rm : Room) : Prop :=
  rm.peers ≠ [] ∧ ∀ h, rm.hostId = some h → h ∈ rm.peerIds

/-- Every room in the table satisfies `roomInv`. -/
def stateInv (s : RState) : Prop :=
  ∀ r rm, s r = some rm → roomInv rm

lemma stateInv_init : stateInv RState.init := by
  intro r rm h
  exact absurd h (by simp [RState.init])

lemma head?_mem_map_fst (l : List (String × PeerNeg)) (g : String)
    (h : (l.head?).map Prod.fst = some g) : g ∈ l.map Prod.fst := by
  cases l with
  | nil => simp at h
  | cons a t =>
    simp only [List.head?_cons, Option.map_some'] at h
    injection h with h
    simp [h]

lemma mem_map_fst_filter_of (l : List (String × PeerNeg)) (g p : String)
    (hg : g ∈ l.map Prod.fst) (hne : g ≠ p) :
    g ∈ (l.filter (fun q => q.fst ≠ p)).map Prod.fst := by
  simp only [List.mem_map, List.mem_filter, decide_eq_true_eq] at hg ⊢
  obtain ⟨q, hq, rfl⟩ := hg
  exact ⟨q, ⟨hq, hne⟩, rfl⟩

lemma roomInv_offer_update (o : Option Room) (p sdp : String)
    (ho : ∀ rm, o = some rm → roomInv rm) :
    ∀ rm', offer_update o p sdp = some rm' → roomInv rm' := by
  intro rm' h
  cases o with
  | none =>
    rw [offer_update] at h
    injection h with h
    subst h
    exact ⟨by simp, fun g hg => by injection hg with hg; simp [Room.peerIds, hg]⟩
  | some rm =>
    obtain ⟨hne, hhost⟩ := ho rm rfl
    rw [offer_update] at h
    by_cases hp : p ∈ rm.peerIds
    · rw [if_pos hp] at h
      injection h with h
      subst h
      refine ⟨by simpa using hne, fun g hg => ?_⟩
      have hg' := hhost g hg
      simp only [Room.peerIds] at hg' ⊢
      rw [show ((rm.peers.map (fun q =>
          if q.fst = p then (q.fst, apply_remote_description sdp q.snd) else q)).map
            fun x => x.fst) = rm.peers.map fun x => x.fst from
        map_fst_update rm.peers p sdp]
      exact hg'
    · rw [if_neg hp] at h
      injection h with h
      subst h
      refine ⟨by simp, fun g hg => ?_⟩
      have hg' := hhost g hg
      simp only [Room.peerIds] at hg' ⊢
      simp [hg']

lemma roomInv_leave_update (o : Option Room) (p : String)
    (ho : ∀ rm, o = some rm → roomInv rm) :
    ∀ rm', leave_update o p = some rm' → roomInv rm' := by
  intro rm' h
  cases o with
  | none => exact absurd h (by rw [leave_update]; simp)
  | some rm =>
    obtain ⟨_, hhost⟩ := ho rm rfl
    rw [leave_update] at h
    by_cases hp : p ∈ rm.peerIds
    · rw [if_pos hp] at h
      by_cases he : rm.peers.filter (fun q => q.fst ≠ p) = []
      · rw [if_pos he] at h
        exact absurd h (by simp)
      · rw [if_neg he] at h
        injection h with h
        subst h
        refine ⟨he, fun g hg => ?_⟩
        simp only at hg
        by_cases hh : rm.hostId = some p
        · rw [if_pos hh] at hg
          exact head?_mem_map_fst _ g hg
        · rw [if_neg hh] at hg
          have hgp : g ≠ p := by
            intro hgp
            exact hh (hgp ▸ hg)
          exact mem_map_fst_filter_of rm.peers g p (hhost g hg) hgp
    · rw [if_neg hp] at h
      injection h with h
      subst h
      exact ho rm rfl

lemma stateInv_applyROp (s : RState) (hs : stateInv s) (op : ROp) :
    stateInv (applyROp s op) := by
  cases op with
  | offer r p sdp =>
    intro name rm' h
    by_cases hn : name = r
    · rw [show applyROp s (ROp.offer r p sdp) name =
          (if name = r then offer_update (s r) p sdp else s name) from rfl,
        if_pos hn] at h
      exact roomInv_offer_update (s r) p sdp (fun rm hrm => hs r rm hrm) rm' h
    · rw [show applyROp s (ROp.offer r p sdp) name =
          (if name = r then offer_update (s r) p sdp else s name) from rfl,
        if_neg hn] at h
      exact hs name rm' h
  | leave r p =>
    intro name rm' h
    by_cases hn : name = r
    · rw [show applyROp s (ROp.leave r p) name =
          (if name = r then leave_update (s r) p else s name) from rfl,
        if_pos hn] at h
      exact roomInv_leave_update (s r) p (fun rm hrm => hs r rm hrm) rm' h
    · rw [show applyROp s (ROp.leave r p) name =
          (if name = r then leave_update (s r) p else s name) from rfl,
        if_neg hn] at h
      exact hs name rm' h

lemma stateInv_applyROps (ops : List ROp) : stateInv (applyROps ops) := by
  rw [applyROps]
  have key : ∀ (l : List ROp) (s : RState), stateInv s →
      stateInv (l.foldl applyROp s) := by
    intro l
    induction l with
    | nil => intro s hs; exact hs
    | cons op t ih =>
      intro s hs
      exact ih (applyROp s op) (stateInv_applyROp s hs op)
  exact key ops RState.init stateInv_init

/-- C1: after any sequence of offers and leaves, `rooms_info()` never
reports a room with zero peers nor a `host_id` outside the room's
`peer_ids`; when the host leaves while other peers remain, the reported
`host_id` becomes the earliest-joined remaining peer; and when the last
peer leaves, the room's key disappears from the `rooms_info()` mapping. -/
theorem C1_host_and_room_invariants (ops : List ROp) (r p : String) (rm : Room) :
    (∀ info, rooms_info (applyROps ops) r = some info →
      info.peer_count ≠ 0 ∧ ∀ h, info.host_id = some h → h ∈ info.peer_ids) ∧
    (applyROps ops r = some rm → rm.hostId = some p →
      rm.peers.filter (fun q => q.fst ≠ p) ≠ [] →
      rooms_info (leave_room (applyROps ops) r p) r =
        some ⟨(rm.peers.filter (fun q => q.fst ≠ p)).length,
              ((rm.peers.filter (fun q => q.fst ≠ p)).head?).map Prod.fst,
              (rm.peers.filter (fun q => q.fst ≠ p)).map Prod.fst⟩) ∧
    (applyROps ops r = some rm → p ∈ rm.peerIds →
      rm.peers.filter (fun q => q.fst ≠ p) = [] →
      rooms_info (leave_room (applyROps ops) r p) r = none) := by
  have hinv := stateInv_applyROps ops
  have hat : ∀ s : RState, leave_room s r p r = leave_update (s r) p := by
    intro s
    show (if r = r then leave_update (s r) p else s r) = _
    rw [if_pos rfl]
  refine ⟨?_, ?_, ?_⟩
  · intro info h
    rw [rooms_info] at h
    cases hs : applyROps ops r with
    | none => rw [hs] at h; exact absurd h (by simp)
    | some rm0 =>
      rw [hs] at h
      simp only [Option.map_some'] at h
      injection h with h
      subst h
      obtain ⟨hne, hhost⟩ := hinv r rm0 hs
      exact ⟨by simpa using hne, hhost⟩
  · intro hs hhost he
    have hp : p ∈ rm.peerIds := (hinv r rm hs).2 p hhost
    rw [rooms_info, hat, hs, leave_update, if_pos hp, if_neg he, if_pos hhost]
    rfl
  · intro hs hp he
    rw [rooms_info, hat, hs, leave_update, if_pos hp, if_pos he]
    rfl

theorem C1_witness :
    rooms_info
      (leave_room
        (applyROps [ROp.offer "lobby" "A" "s", ROp.offer "lobby" "B" "t"])
        "lobby" "A") "lobby" = some ⟨1, some "B", ["B"]⟩ := by
  have h := (C1_host_and_room_invariants
      [ROp.offer "lobby" "A" "s", ROp.offer "lobby" "B" "t"] "lobby" "A"
      ⟨[("A", ⟨true, some "s", [], []⟩), ("B", ⟨true, some "t", [], []⟩)],
        some "A"⟩).2.1 (by decide) (by decide) (by decide)
  exact h.trans (by decide)

/-! ## C10: the whiteboard message handler -/

lemma handle_wb_clear (loads : String → WbParse) (room user msg dd : String)
    (hsw : strStartsWith msg systemMarker = true)
    (hl : loads msg = .parsed (some "EVENT") (some "clear") (some dd)) :
    handle_whiteboard_events loads room user msg =
      .ok [⟨room, user, "clear_canvas", none⟩] := by
  simp [handle_whiteboard_events, wb_body, hsw, hl]

lemma handle_wb_cases (loads : String → WbParse) (room user msg : String) :
    handle_whiteboard_events loads room user msg = .ok [] ∨
    (handle_whiteboard_events loads room user msg =
        .ok [⟨room, user, "clear_canvas", none⟩] ∧
      strStartsWith msg systemMarker = true ∧
      ∃ dd, loads msg = .parsed (some "EVENT") (some "clear") (some dd)) ∨
    (handle_whiteboard_events loads room user msg =
        .ok [⟨room, user, "message", some msg⟩] ∧
      msg ≠ "" ∧ msg.length < 1000) := by
  by_cases hsw : strStartsWith msg systemMarker = true
  · cases hl : loads msg with
    | fail => exact Or.inl (by simp [handle_whiteboard_events, wb_body, hsw, hl])
    | parsed a e dd =>
      by_cases ha : a = some "EVENT"
      · subst ha
        cases e with
        | none => exact Or.inl (by simp [handle_whiteboard_events, wb_body, hsw, hl])
        | some ev =>
          cases dd with
          | none => exact Or.inl (by simp [handle_whiteboard_events, wb_body, hsw, hl])
          | some dv =>
            by_cases hev : ev = "draw"
            · subst hev
              exact Or.inl (by simp [handle_whiteboard_events, wb_body, hsw, hl])
            · by_cases hev2 : ev = "clear"
              · subst hev2
                exact Or.inr (Or.inl
                  ⟨by simp [handle_whiteboard_events, wb_body, hsw, hl],
                    hsw, dv, rfl⟩)
              · exact Or.inl
                  (by simp [handle_whiteboard_events, wb_body, hsw, hl, hev, hev2])
      · by_cases hm : msg ≠ "" ∧ msg.length < 1000
        · exact Or.inr (Or.inr
            ⟨by simp [handle_whiteboard_events, wb_body, hsw, hl, ha, hm], hm.1, hm.2⟩)
        · exact Or.inl (by simp [handle_whiteboard_events, wb_body, hsw, hl, ha, hm])
  · by_cases hm : msg ≠ "" ∧ msg.length < 1000
    · exact Or.inr (Or.inr
        ⟨by simp [handle_whiteboard_events, wb_body, hsw, hm], hm.1, hm.2⟩)
    · exact Or.inl (by simp [handle_whiteboard_events, wb_body, hsw, hm])

/-- C10 (amended): `handle_whiteboard_events` always completes normally
(every exception is caught inside), never persists `draw` or `cursor`
SYSTEM emit events, persists a `clear_canvas` action exactly when the
message is a SYSTEM EVENT whose payload carries event `clear` AND also has
a `data` entry (the handler reads `payload['data']` before branching, so a
missing `data` key raises and nothing is saved), and saves a plain message
only when it is non-empty and shorter than 1000 characters. -/
theorem C10_whiteboard_events (loads : String → WbParse) (room user msg : String) :
    (∃ acts, handle_whiteboard_events loads room user msg = .ok acts) ∧
    (∀ e dd, strStartsWith msg systemMarker = true →
      loads msg = .parsed (some "EVENT") (some e) (some dd) →
      (e = "draw" ∨ e = "cursor") →
      handle_whiteboard_events loads room user msg = .ok []) ∧
    (∀ acts, handle_whiteboard_events loads room user msg = .ok acts →
      ((⟨room, user, "clear_canvas", none⟩ : DbAction) ∈ acts ↔
        strStartsWith msg systemMarker = true ∧
        ∃ dd, loads msg = .parsed (some "EVENT") (some "clear") (some dd))) ∧
    (∀ acts m, handle_whiteboard_events loads room user msg = .ok acts →
      (⟨room, user, "message", some m⟩ : DbAction) ∈ acts →
      m = msg ∧ msg ≠ "" ∧ msg.length < 1000) := by
  refine ⟨?_, ?_, ?_, ?_⟩
  · rcases handle_wb_cases loads room user msg with h | ⟨h, _⟩ | ⟨h, _⟩ <;>
      exact ⟨_, h⟩
  · intro e dd hsw hl hde
    rcases hde with rfl | rfl <;> simp [handle_whiteboard_events, wb_body, hsw, hl]
  · intro acts hacts
    constructor
    · intro hmem
      rcases handle_wb_cases loads room user msg with h | ⟨h, h2, h3⟩ | ⟨h, _, _⟩
      · rw [hacts] at h
        injection h with h
        subst h
        simp at hmem
      · exact ⟨h2, h3⟩
      · rw [hacts] at h
        injection h with h
        subst h
        simp at hmem
    · rintro ⟨hsw, dd, hl⟩
      have h := handle_wb_clear loads room user msg dd hsw hl
      rw [hacts] at h
      injection h with h
      subst h
      simp
  · intro acts m hacts hmem
    rcases handle_wb_cases loads room user msg with h | ⟨h, _, _⟩ | ⟨h, h2, h3⟩
    · rw [hacts] at h
      injection h with h
      subst h
      simp at hmem
    · rw [hacts] at h
      injection h with h
      subst h
      simp at hmem
    · rw [hacts] at h
      injection h with h
      subst h
      simp at hmem
      exact ⟨hmem, h2, h3⟩

/-- C10 counterexample to the claim as stated: a SYSTEM EVENT message whose
payload's parsed event name is `clear` but which has no `data` entry
persists nothing — `data['payload']['data']` raises `KeyError` before the
save, so `clear_canvas` is NOT persisted although the parsed event name is
`clear`. -/
theorem C10_counterexample :
    strStartsWith systemMarker systemMarker = true ∧
    (fun _ : String => WbParse.parsed (some "EVENT") (some "clear") none)
        systemMarker = WbParse.parsed (some "EVENT") (some "clear") none ∧
    handle_whiteboard_events
        (fun _ => WbParse.parsed (some "EVENT") (some "clear") none)
        "r" "u" systemMarker = .ok [] := by
  refine ⟨by decide, rfl, ?_⟩
  simp [handle_whiteboard_events, wb_body, show strStartsWith systemMarker systemMarker = true by decide]

theorem C10_witness :
    (⟨"r", "u", "clear_canvas", none⟩ : DbAction) ∈
      ([⟨"r", "u", "clear_canvas", none⟩] : List DbAction) := by
  have h := ((C10_whiteboard_events
      (fun _ => WbParse.parsed (some "EVENT") (some "clear") (some "x"))
      "r" "u" systemMarker).2.2.1 [⟨"r", "u", "clear_canvas", none⟩]
    (by simp [handle_whiteboard_events, wb_body,
      show strStartsWith systemMarker systemMarker = true by decide]))
  exact h.mpr ⟨by decide, "x", rfl⟩

end PeerPy
